import Mathlib

/-!
Verification development for the molecular construction and reaction engine
of the `stk` repository (files `src/stk/molecular/functional_groups.py` and
`src/stk/molecular/molecules/constructed_molecule.py`).

The Python code is shallowly embedded: classes become structures, mutation of
the `Reactor`/molecule state becomes explicit state passing, and Python
exceptions become `Except` error values.  Functional groups are mutated in
place by the reactor, so the state carries the molecule's functional-group
list and reactions refer to functional groups by their position in that list
(mirroring object identity through `mol.func_groups`).
-/

namespace Stk

/-- Python exception kinds raised by the embedded code. -/
inductive PyErr where
  /-- `KeyError` from a dict subscription, carrying the missing key. -/
  | keyError (key : String)
  /-- `UnboundLocalError`: a local variable referenced before assignment. -/
  | unboundLocal (var : String)
  /-- `AttributeError`: attribute access on an object lacking it. -/
  | attributeError (attr : String)
  /-- `ValueError`: e.g. tuple unpacking with the wrong number of values. -/
  | valueError
  /-- `IndexError` / failed subscript. -/
  | indexError
  /-- `StopIteration` from `next` on an exhausted generator. -/
  | stopIteration
  /-- A failed `assert` statement. -/
  | assertionError
  /-- `TypeError`: call with a wrong number of arguments. -/
  | typeError
  /-- Modelled from the spec: the spec's error taxonomy (section 7) names an
  `UnknownFunctionalGroupError` for a functional-group name absent from the
  registry.  No class of this name exists anywhere in the repository; the
  constructor exists only so the spec's claimed error kind can be compared
  with the error the code actually produces. -/
  | unknownFunctionalGroup (name : String)
deriving DecidableEq, Repr

/-- An atom (`stk`'s `elements` module is not under `src/`).  Modelled from the
spec: "an identity with a unique integer id ... and an element/atomic-number".
Positions are kept separately in the molecule's position matrix, as the
reactor code does. -/
structure Atom where
  id : Nat
  atomicNumber : Nat
deriving DecidableEq, Repr

/-- Modelled from the spec: `elements.C` (the `elements` module is not under
`src/`) constructs a carbon atom (atomic number 6) with the given id. -/
def elementC (id : Nat) : Atom := { id := id, atomicNumber := 6 }

/-- Modelled from the spec: `elements.H` constructs a hydrogen atom (atomic
number 1) with the given id. -/
def elementH (id : Nat) : Atom := { id := id, atomicNumber := 1 }

/-- A row of the position matrix: a point of 3-space, with rational
coordinates standing in for the floats of the source. -/
abbrev Vec3 := ℚ × ℚ × ℚ

/-- Componentwise sum of two vectors. -/
def addV (p q : Vec3) : Vec3 := (p.1 + q.1, p.2.1 + q.2.1, p.2.2 + q.2.2)

/-- `(p + q) / 2`, the midpoint used by `_ring_amine_with_ring_amine`. -/
def midV (p q : Vec3) : Vec3 :=
  ((p.1 + q.1) / 2, (p.2.1 + q.2.1) / 2, (p.2.2 + q.2.2) / 2)

/-- `v + np.array([0, 0, 1])`. -/
def upZ (p : Vec3) : Vec3 := (p.1, p.2.1, p.2.2 + 1)

/-- `v + np.array([0, 0, -1])`. -/
def downZ (p : Vec3) : Vec3 := (p.1, p.2.1, p.2.2 - 1)

/-- `FunctionalGroup` (functional_groups.py lines 343-524): a tuple of member
atoms, of bonder atoms and of deleter atoms, plus the `FGType` back-reference.
The reactor reads only the type's `name`, so the embedding stores that name.
The `id` attribute is assigned externally by `ConstructedMolecule` (it is not
set in `__init__`); it is modelled as a field with a default value. -/
structure FunctionalGroup where
  atoms : List Atom
  bonders : List Atom
  deleters : List Atom
  fgTypeName : String
  fgId : Nat := 0
deriving DecidableEq, Repr

/-- One endpoint of a bond.  `Bond` is constructed from `Atom` objects by the
default reaction path, but `_diol_with_dihalogen` (lines 788-789) passes bare
integer atom ids (the values of `get_bonder_ids`); the endpoint records which
of the two it was given, since `finalize` accesses `bond.atom1.id`. -/
inductive BondEnd where
  /-- An `Atom` object. -/
  | atom (a : Atom)
  /-- A bare integer atom id, as appended by `_diol_with_dihalogen`. -/
  | rawId (i : Nat)
deriving DecidableEq, Repr

/-- `bond.atom1.id`: succeeds on an `Atom` object; on a bare integer the
attribute access raises `AttributeError` (`none` here). -/
def BondEnd.endId : BondEnd → Option Nat
  | .atom a => some a.id
  | .rawId _ => none

/-- Modelled from the spec (the `bonds` module is not under `src/`): a `Bond`
is "an ordered pair of Atom identities plus an integer bond order", and a
`PeriodicBond` is "a Bond variant carrying an additional direction vector
(three signed integers)".  The variant is modelled by an optional direction:
`none` for `Bond`, `some d` for `PeriodicBond d`. -/
structure Bond where
  atom1 : BondEnd
  atom2 : BondEnd
  order : Nat
  direction : Option (ℤ × ℤ × ℤ) := none
deriving DecidableEq, Repr

/-- The combined state of the molecule being built and its `Reactor`
(`Reactor.__init__`, lines 607-627): the molecule's `atoms`, `bonds`,
`_position_matrix` and `func_groups`, the reactor's set `_deleter_ids` of
atom ids staged for removal, and the counter `_bonds_made`.  (The reactor
field `_deleter_bonds` is initialized at line 627 but never used by any other
line of the file, so it is omitted.) -/
structure ReactorState where
  atoms : List Atom
  bonds : List Bond
  positionMatrix : List Vec3
  funcGroups : List FunctionalGroup
  deleterIds : Finset Nat
  bondsMade : Nat
deriving DecidableEq

instance {ε α : Type} [DecidableEq ε] [DecidableEq α] :
    DecidableEq (Except ε α) := fun a b =>
  match a, b with
  | .ok x, .ok y =>
      if h : x = y then .isTrue (by rw [h])
      else .isFalse (fun he => h (by cases he; rfl))
  | .error e, .error f =>
      if h : e = f then .isTrue (by rw [h])
      else .isFalse (fun he => h (by cases he; rfl))
  | .ok _, .error _ => .isFalse (fun he => by cases he)
  | .error _, .ok _ => .isFalse (fun he => by cases he)

/-! ## Reaction keys (`_ReactionKey`, lines 59-133) -/

/-- The string comparison Python's `sorted` uses: lexicographic by code
point.  This is the relation of Lean's `String` order (`String.lt` compares
the character lists), written on the character lists directly so that it
evaluates inside the kernel. -/
def strLT (a b : String) : Prop := a.data < b.data

instance : DecidableRel strLT := fun a b => by
  unfold strLT; infer_instance

/-- The comparison Python's `sorted` uses on the `(name, count)` items of the
`Counter`: lexicographic on the pair. -/
def keyLE (a b : String × Nat) : Prop :=
  strLT a.1 b.1 ∨ (a.1 = b.1 ∧ a.2 ≤ b.2)

instance : DecidableRel keyLE := fun a b => by
  unfold keyLE; infer_instance

theorem strLT_trichotomy (a b : String) : strLT a b ∨ a = b ∨ strLT b a := by
  rcases lt_trichotomy a.data b.data with h | h | h
  · exact Or.inl h
  · exact Or.inr (Or.inl (String.ext h))
  · exact Or.inr (Or.inr h)

theorem strLT_trans {a b c : String} (h1 : strLT a b) (h2 : strLT b c) :
    strLT a c := lt_trans h1 h2

theorem strLT_irrefl (a : String) : ¬strLT a a := lt_irrefl a.data

instance : IsTotal (String × Nat) keyLE where
  total a b := by
    rcases strLT_trichotomy a.1 b.1 with h | h | h
    · exact Or.inl (Or.inl h)
    · rcases Nat.le_total a.2 b.2 with h2 | h2
      · exact Or.inl (Or.inr ⟨h, h2⟩)
      · exact Or.inr (Or.inr ⟨h.symm, h2⟩)
    · exact Or.inr (Or.inl h)

instance : IsTrans (String × Nat) keyLE where
  trans a b c hab hbc := by
    rcases hab with h1 | ⟨h1, h1'⟩ <;> rcases hbc with h2 | ⟨h2, h2'⟩
    · exact Or.inl (strLT_trans h1 h2)
    · exact Or.inl (h2 ▸ h1)
    · exact Or.inl (h1 ▸ h2)
    · exact Or.inr ⟨h1.trans h2, le_trans h1' h2'⟩

instance : IsAntisymm (String × Nat) keyLE where
  antisymm a b hab hba := by
    rcases hab with h1 | ⟨h1, h1'⟩
    · rcases hba with h2 | ⟨h2, h2'⟩
      · exact absurd h2 (fun h2 => strLT_irrefl a.1 (strLT_trans h1 h2))
      · exact absurd h1 (h2 ▸ strLT_irrefl b.1)
    · rcases hba with h2 | ⟨h2, h2'⟩
      · exact absurd h2 (h1 ▸ strLT_irrefl b.1)
      · exact Prod.ext h1 (le_antisymm h1' h2')

/-- The `_key` of a `_ReactionKey` (lines 109-116):
`tuple(sorted((key, value) for key, value in Counter(fg_names).items()))`.
`Counter` iterates its keys in first-insertion order with their
multiplicities, which is `fg_names.dedup` paired with `fg_names.count`; the
pairs are then sorted (any sorting algorithm yields the same list, since
`keyLE` is a total, antisymmetric order).  Two `_ReactionKey`s are equal iff
these lists are (`__eq__`, line 118). -/
def reactionKey (fgNames : List String) : List (String × Nat) :=
  List.insertionSort keyLE
    (fgNames.dedup.map (fun n => (n, fgNames.count n)))

/-- `Reactor._bond_orders` (lines 598-605): bond-order overrides for the
default reaction, keyed by reaction key. -/
def bondOrders : List (List (String × Nat) × Nat) :=
  [ (reactionKey ["amine", "aldehyde"], 2),
    (reactionKey ["amide", "aldehyde"], 2),
    (reactionKey ["nitrile", "aldehyde"], 2),
    (reactionKey ["amide", "amine"], 2),
    (reactionKey ["terminal_alkene", "terminal_alkene"], 2),
    (reactionKey ["alkyne2", "alkyne2"], 3) ]

/-- `self._bond_orders.get(reaction_key, 1)` (lines 667 and 705). -/
def lookupBondOrder (key : List (String × Nat)) : Nat :=
  (bondOrders.lookup key).getD 1

/-! ## The custom reaction registry (lines 914-938) -/

/-- The values of `Reactor._custom_reactions`: which custom procedure a
reaction key is mapped to.  `partial(_diol_with_dihalogen, dihalogen=...)`
binds the (shadowed, unused) `dihalogen` string argument. -/
inductive CustomRxn where
  | boronicAcidWithDiol
  | diolWithDihalogen (dihalogen : String)
  | ringAmineWithRingAmine
deriving DecidableEq, Repr

/-- `Reactor._custom_reactions` (lines 918-932). -/
def customReactions : List (List (String × Nat) × CustomRxn) :=
  [ (reactionKey ["boronic_acid", "diol"], .boronicAcidWithDiol),
    (reactionKey ["diol", "difluorene"], .diolWithDihalogen "difluorene"),
    (reactionKey ["diol", "dibromine"], .diolWithDihalogen "dibromine"),
    (reactionKey ["ring_amine", "ring_amine"], .ringAmineWithRingAmine) ]

/-- `Reactor._periodic_custom_reactions` (line 938): the separate registry
for periodic reactions.  It is empty. -/
def periodicCustomReactions : List (List (String × Nat) × Unit) := []

/-! ## Geometry helpers of the molecule (class `Molecule` is not in `src/`) -/

/-- Modelled from the spec: `Molecule.get_atom_distance` (not under `src/`;
only its caller at line 774 is) computes the 3-D distance between the
positions of two atom ids.  It is embedded as the squared Euclidean distance
over ℚ, which induces exactly the same ascending sort order as the Euclidean
distance (squaring is strictly monotone on nonnegative reals, so order and
ties are preserved); out-of-range ids are glossed as the origin. -/
def getAtomDistance (s : ReactorState) (i j : Nat) : ℚ :=
  let p := s.positionMatrix.getD i (0, 0, 0)
  let q := s.positionMatrix.getD j (0, 0, 0)
  (p.1 - q.1) ^ 2 + (p.2.1 - q.2.1) ^ 2 + (p.2.2 - q.2.2) ^ 2

/-- Modelled from the spec: `Molecule.get_atom_coords` (not under `src/`;
its caller at line 849 passes `Atom` objects) returns the coordinates of the
given atoms, in the order given, read from the position matrix by atom id. -/
def getAtomCoords (s : ReactorState) (atoms : List Atom) : List Vec3 :=
  atoms.map (fun a => s.positionMatrix.getD a.id (0, 0, 0))

/-! ## `Reactor.add_reaction` (lines 629-672) -/

/-- Resolution of the `*fgs` argument: the caller passes functional-group
objects owned by the molecule; a command refers to them by index into
`funcGroups`, and this resolves those indices. -/
def resolveFGs (s : ReactorState) : List Nat → Option (List FunctionalGroup)
  | [] => some []
  | i :: rest =>
      (s.funcGroups[i]?).bind fun fg =>
        (resolveFGs s rest).map (fg :: ·)

/-- One iteration of the staging loop of `add_reaction` (lines 660-665), on
the functional group at index `i`: add all the group's deleter ids to
`_deleter_ids`, then shrink the group's `atoms` tuple to the atoms whose id
is not in the (just-updated, accumulated) deleter set, and clear its
`deleters` tuple.  The group is mutated in place, i.e. written back to the
molecule's `funcGroups` store. -/
def stageAt (s : ReactorState) (i : Nat) : Except PyErr ReactorState :=
  match s.funcGroups[i]? with
  | none => .error .indexError
  | some fg =>
      let del := s.deleterIds ∪ (fg.deleters.map Atom.id).toFinset
      let fg' : FunctionalGroup :=
        { fg with
          atoms := fg.atoms.filter (fun a => decide (a.id ∉ del)),
          deleters := [] }
      .ok { s with deleterIds := del, funcGroups := s.funcGroups.set i fg' }

/-- The whole staging loop `for fg in fgs:` of `add_reaction`. -/
def stageAll : ReactorState → List Nat → Except PyErr ReactorState
  | s, [] => .ok s
  | s, i :: rest => (stageAt s i).bind (stageAll · rest)

/-- The tail of the default reaction path (lines 667-672): unpack exactly two
functional groups, append one bond between their first bonder atoms with the
order from the bond-order table, and increment `_bonds_made` by 1.  The same
tail serves `add_periodic_reaction` (lines 705-717), which appends a
`PeriodicBond` carrying `direction`. -/
def defaultTail (s : ReactorState) (i j : Nat) (key : List (String × Nat))
    (direction : Option (ℤ × ℤ × ℤ)) : Except PyErr ReactorState :=
  match s.funcGroups[i]?, s.funcGroups[j]? with
  | some fg1, some fg2 =>
      match fg1.bonders, fg2.bonders with
      | b1 :: _, b2 :: _ =>
          .ok { s with
                bonds := s.bonds ++
                  [{ atom1 := .atom b1, atom2 := .atom b2,
                     order := lookupBondOrder key, direction := direction }],
                bondsMade := s.bondsMade + 1 }
      | _, _ => .error .indexError
  | _, _ => .error .indexError

/-! ### `Reactor._diol_with_dihalogen` (lines 746-790) -/

/-- The comparison Python's `distances.sort()` uses on `(d, carbon, oxygen)`
triples: lexicographic. -/
def distLE (a b : ℚ × Nat × Nat) : Prop :=
  a.1 < b.1 ∨ (a.1 = b.1 ∧ (a.2.1 < b.2.1 ∨ (a.2.1 = b.2.1 ∧ a.2.2 ≤ b.2.2)))

instance : DecidableRel distLE := fun a b => by
  unfold distLE; infer_instance

instance : IsTotal (ℚ × Nat × Nat) distLE where
  total a b := by
    rcases lt_trichotomy a.1 b.1 with h | h | h
    · exact Or.inl (Or.inl h)
    · rcases lt_trichotomy a.2.1 b.2.1 with h2 | h2 | h2
      · exact Or.inl (Or.inr ⟨h, Or.inl h2⟩)
      · rcases Nat.le_total a.2.2 b.2.2 with h3 | h3
        · exact Or.inl (Or.inr ⟨h, Or.inr ⟨h2, h3⟩⟩)
        · exact Or.inr (Or.inr ⟨h.symm, Or.inr ⟨h2.symm, h3⟩⟩)
      · exact Or.inr (Or.inr ⟨h.symm, Or.inl h2⟩)
    · exact Or.inr (Or.inl h)

instance : IsTrans (ℚ × Nat × Nat) distLE where
  trans a b c hab hbc := by
    rcases hab with h1 | ⟨h1, h1'⟩
    · rcases hbc with h2 | ⟨h2, _⟩
      · exact Or.inl (lt_trans h1 h2)
      · exact Or.inl (h2 ▸ h1)
    · rcases hbc with h2 | ⟨h2, h2'⟩
      · exact Or.inl (h1 ▸ h2)
      · refine Or.inr ⟨h1.trans h2, ?_⟩
        rcases h1' with h3 | ⟨h3, h3'⟩
        · rcases h2' with h4 | ⟨h4, _⟩
          · exact Or.inl (lt_trans h3 h4)
          · exact Or.inl (h4 ▸ h3)
        · rcases h2' with h4 | ⟨h4, h4'⟩
          · exact Or.inl (h3 ▸ h4)
          · exact Or.inr ⟨h3.trans h4, le_trans h3' h4'⟩

/-- The greedy dedup loop of `_diol_with_dihalogen` (lines 778-784): walk the
distance-sorted triples and keep the `(carbon, oxygen)` of each triple whose
carbon and oxygen have both never been kept before. -/
def dedupPairs : List (ℚ × Nat × Nat) → List Nat → List Nat → List (Nat × Nat)
  | [], _, _ => []
  | (_, c, o) :: rest, seenC, seenO =>
      if c ∉ seenC ∧ o ∉ seenO then
        (c, o) :: dedupPairs rest (c :: seenC) (o :: seenO)
      else
        dedupPairs rest seenC seenO

/-- The distance-sorted, deduplicated candidate pair list of
`_diol_with_dihalogen` (lines 768-784) for the two given functional groups:
all (dihalogen bonder id, diol bonder id) pairs keyed by inter-atomic
distance, sorted ascending, then greedily deduplicated. -/
def dedupedPairsOf (s : ReactorState) (fg1 fg2 : FunctionalGroup) :
    List (Nat × Nat) :=
  let diol := if fg1.fgTypeName = "diol" then fg1 else fg2
  let dihal := if fg1.fgTypeName = "diol" then fg2 else fg1
  let distances :=
    (dihal.bonders.map Atom.id).flatMap (fun carbon =>
      (diol.bonders.map Atom.id).map (fun oxygen =>
        (getAtomDistance s carbon oxygen, carbon, oxygen)))
  dedupPairs (List.insertionSort distLE distances) [] []

/-- `Reactor._diol_with_dihalogen` (lines 746-790).  Identifies which group
is the diol, builds the deduplicated candidate pair list, unpacks its first
two pairs (`ValueError` if there are fewer than two), asserts that the two
carbons and the two oxygens differ, then appends two single bonds — whose
endpoints are the bare atom ids, exactly as the source passes
`get_bonder_ids` values to `Bond` — and increments `_bonds_made` by 2.
The `dihalogen` string bound by `partial` is shadowed by the local at line
769 and never used. -/
def diolWithDihalogen (s : ReactorState) (fg1 fg2 : FunctionalGroup)
    (_dihalogen : String) : Except PyErr ReactorState :=
  match dedupedPairsOf s fg1 fg2 with
  | (c1, o1) :: (c2, o2) :: _ =>
      if c1 ≠ c2 ∧ o1 ≠ o2 then
        .ok { s with
              bonds := s.bonds ++
                [{ atom1 := .rawId c1, atom2 := .rawId o1, order := 1 },
                 { atom1 := .rawId c2, atom2 := .rawId o2, order := 1 }],
              bondsMade := s.bondsMade + 2 }
      else
        .error .assertionError
  | _ => .error .valueError

/-! ### `Reactor._boronic_acid_with_diol` (lines 792-823) -/

/-- `Reactor._boronic_acid_with_diol`: stage both groups exactly as the
default path does (lines 810-815 repeat lines 660-665), then bond the boron
bonder atom to both diol bonder atoms and increment `_bonds_made` by 2.  The
groups are identified by index since the staging mutates them in place. -/
def boronicAcidWithDiol (s : ReactorState) (i j : Nat) :
    Except PyErr ReactorState :=
  (stageAll s [i, j]).bind fun s1 =>
    match s1.funcGroups[i]?, s1.funcGroups[j]? with
    | some fg1, some fg2 =>
        let boron := if fg1.fgTypeName = "boronic_acid" then fg1 else fg2
        let diol := if fg1.fgTypeName = "boronic_acid" then fg2 else fg1
        match boron.bonders, diol.bonders with
        | b :: _, o1 :: o2 :: _ =>
            .ok { s1 with
                  bonds := s1.bonds ++
                    [{ atom1 := .atom b, atom2 := .atom o1, order := 1 },
                     { atom1 := .atom b, atom2 := .atom o2, order := 1 }],
                  bondsMade := s1.bondsMade + 2 }
        | _, _ => .error .indexError
    | _, _ => .error .indexError

/-! ### `Reactor._ring_amine_with_ring_amine` (lines 825-912) -/

/-- `Reactor._ring_amine_with_ring_amine`, transcribed line by line.  Note
two facts of the source this embedding preserves: the coordinates are fetched
at line 849 in the order `(c1, n1, c2, n2)` but unpacked at line 850 into the
names `n1_coord, n2_coord, c1_coord, c2_coord`, and the joining atom
`n_joiner` is created by `elements.C` (line 852), i.e. as a carbon.  Each new
atom's id is the current length of the molecule's atom list.  No existing
atom is deleted and `_deleter_ids` is not touched. -/
def ringAmineWithRingAmine (s : ReactorState) (fg1 fg2 : FunctionalGroup) :
    Except PyErr ReactorState :=
  match fg1.bonders.find? (fun a => a.atomicNumber == 6),
        fg1.bonders.find? (fun a => a.atomicNumber == 7),
        fg2.bonders.find? (fun a => a.atomicNumber == 6),
        fg2.bonders.find? (fun a => a.atomicNumber == 7) with
  | some c1, some n1, some c2, some n2 =>
      match getAtomCoords s [c1, n1, c2, n2] with
      | [n1Coord, n2Coord, c1Coord, c2Coord] =>
          let nJoiner := elementC s.atoms.length
          let atoms1 := s.atoms ++ [nJoiner]
          let nJoinerCoord := midV n1Coord n2Coord
          let nh1 := elementH atoms1.length
          let atoms2 := atoms1 ++ [nh1]
          let nh1Coord := upZ nJoinerCoord
          let nh2 := elementH atoms2.length
          let atoms3 := atoms2 ++ [nh2]
          let nh2Coord := downZ nJoinerCoord
          let ncJoiner1 := elementC atoms3.length
          let atoms4 := atoms3 ++ [ncJoiner1]
          let ncJoiner1Coord := midV c1Coord n2Coord
          let nc1h1 := elementH atoms4.length
          let atoms5 := atoms4 ++ [nc1h1]
          let nc1h1Coord := upZ ncJoiner1Coord
          let nc1h2 := elementH atoms5.length
          let atoms6 := atoms5 ++ [nc1h2]
          let nc1h2Coord := downZ ncJoiner1Coord
          let ncJoiner2 := elementC atoms6.length
          let atoms7 := atoms6 ++ [ncJoiner2]
          let ncJoiner2Coord := midV c2Coord n1Coord
          let nc2h1 := elementH atoms7.length
          let atoms8 := atoms7 ++ [nc2h1]
          let nc2h1Coord := upZ ncJoiner2Coord
          let nc2h2 := elementH atoms8.length
          let atoms9 := atoms8 ++ [nc2h2]
          let nc2h2Coord := downZ ncJoiner2Coord
          .ok { s with
                atoms := atoms9,
                positionMatrix := s.positionMatrix ++
                  [nJoinerCoord, nh1Coord, nh2Coord,
                   ncJoiner1Coord, nc1h1Coord, nc1h2Coord,
                   ncJoiner2Coord, nc2h1Coord, nc2h2Coord],
                bonds := s.bonds ++
                  [{ atom1 := .atom n1, atom2 := .atom nJoiner, order := 1 },
                   { atom1 := .atom n2, atom2 := .atom nJoiner, order := 1 },
                   { atom1 := .atom nJoiner, atom2 := .atom nh1, order := 1 },
                   { atom1 := .atom nJoiner, atom2 := .atom nh2, order := 1 },
                   { atom1 := .atom c1, atom2 := .atom ncJoiner1, order := 1 },
                   { atom1 := .atom n2, atom2 := .atom ncJoiner1, order := 1 },
                   { atom1 := .atom ncJoiner1, atom2 := .atom nc1h1, order := 1 },
                   { atom1 := .atom ncJoiner1, atom2 := .atom nc1h2, order := 1 },
                   { atom1 := .atom c2, atom2 := .atom ncJoiner2, order := 1 },
                   { atom1 := .atom n1, atom2 := .atom ncJoiner2, order := 1 },
                   { atom1 := .atom ncJoiner2, atom2 := .atom nc2h1, order := 1 },
                   { atom1 := .atom ncJoiner2, atom2 := .atom nc2h2, order := 1 }],
                bondsMade := s.bondsMade + 12 }
      | _ => .error .indexError
  | _, _, _, _ => .error .stopIteration

/-- Dispatch of `self._custom_reactions[reaction_key](self, *fgs)` (line
658).  Every registered key is a two-name multiset, so the procedures take
exactly two functional groups; `_diol_with_dihalogen` and
`_ring_amine_with_ring_amine` never mutate their groups and receive them by
value, while `_boronic_acid_with_diol` mutates them in place and receives
their indices. -/
def runCustomRxn (r : CustomRxn) (s : ReactorState) (idxs : List Nat) :
    Except PyErr ReactorState :=
  match idxs with
  | [i, j] =>
      match s.funcGroups[i]?, s.funcGroups[j]? with
      | some fg1, some fg2 =>
          match r with
          | .boronicAcidWithDiol => boronicAcidWithDiol s i j
          | .diolWithDihalogen h => diolWithDihalogen s fg1 fg2 h
          | .ringAmineWithRingAmine => ringAmineWithRingAmine s fg1 fg2
      | _, _ => .error .indexError
  | _ => .error .typeError

/-- `Reactor.add_reaction` (lines 629-672).  Compute the reaction key of the
participating groups' type names; if a custom procedure is registered for it,
delegate entirely to that procedure; otherwise run the staging loop over all
the groups, then unpack exactly two of them (`ValueError` otherwise) and
append one bond between their first bonder atoms — order from the bond-order
table, default 1 — incrementing `_bonds_made` by 1. -/
def addReaction (s : ReactorState) (idxs : List Nat) :
    Except PyErr ReactorState :=
  match resolveFGs s idxs with
  | none => .error .indexError
  | some fgs =>
      let key := reactionKey (fgs.map (·.fgTypeName))
      match customReactions.lookup key with
      | some rxn => runCustomRxn rxn s idxs
      | none =>
          (stageAll s idxs).bind fun s1 =>
            match idxs with
            | [i, j] => defaultTail s1 i j key none
            | _ => .error .valueError

/-- One iteration of the staging loop of `add_periodic_reaction` (lines
695-697): add the group's deleter ids to `_deleter_ids` and clear its
`deleters` tuple.  Unlike the loop of `add_reaction`, the group's `atoms`
tuple is NOT shrunk. -/
def periodicStageAt (s : ReactorState) (i : Nat) : Except PyErr ReactorState :=
  match s.funcGroups[i]? with
  | none => .error .indexError
  | some fg =>
      let del := s.deleterIds ∪ (fg.deleters.map Atom.id).toFinset
      .ok { s with
            deleterIds := del,
            funcGroups := s.funcGroups.set i { fg with deleters := [] } }

/-- The staging loop of `add_periodic_reaction`. -/
def periodicStageAll : ReactorState → List Nat → Except PyErr ReactorState
  | s, [] => .ok s
  | s, i :: rest => (periodicStageAt s i).bind (periodicStageAll · rest)

/-- `Reactor.add_periodic_reaction` (lines 674-717).  The staging loop runs
first (before any dispatch, and without shrinking `atoms`), then the reaction
key is looked up in the separate registry `_periodic_custom_reactions`
(which is empty, so the dispatch never fires), then exactly two groups are
unpacked and a `PeriodicBond` carrying `direction` is appended between their
first bonder atoms, with the order from the same bond-order table, and
`_bonds_made` is incremented by 1. -/
def addPeriodicReaction (s : ReactorState) (direction : ℤ × ℤ × ℤ)
    (idxs : List Nat) : Except PyErr ReactorState :=
  match resolveFGs s idxs with
  | none => .error .indexError
  | some fgs =>
      (periodicStageAll s idxs).bind fun s1 =>
        let key := reactionKey (fgs.map (·.fgTypeName))
        match periodicCustomReactions.lookup key with
        | some _ => .error .typeError
        | none =>
            match idxs with
            | [i, j] => defaultTail s1 i j key (some direction)
            | _ => .error .valueError

/-- The filter condition of the bond comprehension of `finalize` (lines
735-737): `bond.atom1.id not in self._deleter_ids and bond.atom2.id not in
self._deleter_ids`, with Python's left-to-right short-circuit evaluation —
`bond.atom2.id` is only evaluated when the first conjunct holds; an `id`
access on a bare integer endpoint raises `AttributeError` (`none`). -/
def bondKeep (del : Finset Nat) (b : Bond) : Option Bool :=
  match b.atom1.endId with
  | none => none
  | some u =>
      if u ∈ del then some false
      else
        match b.atom2.endId with
        | none => none
        | some v => some (decide (v ∉ del))

/-- The bond comprehension of `finalize`: keep each bond whose condition
evaluates to true, propagating the `AttributeError` of a failing condition. -/
def filterBonds (del : Finset Nat) : List Bond → Option (List Bond)
  | [] => some []
  | b :: rest =>
      (bondKeep del b).bind fun keep =>
        (filterBonds del rest).map (fun r => if keep then b :: r else r)

/-- `Reactor.finalize` (lines 719-744).  Remove from the molecule every atom
whose id is in `_deleter_ids`, every bond either of whose endpoints' ids is
in `_deleter_ids`, and every position-matrix row whose index is in
`_deleter_ids`.  Returns the `_bonds_made` counter. -/
def finalize (s : ReactorState) : Except PyErr (ReactorState × Nat) :=
  let atoms1 := s.atoms.filter (fun a => decide (a.id ∉ s.deleterIds))
  match filterBonds s.deleterIds s.bonds with
  | none => .error (.attributeError "id")
  | some bonds1 =>
      let pos1 := (s.positionMatrix.enum.filter
        (fun p => decide (p.1 ∉ s.deleterIds))).map (·.2)
      .ok ({ s with atoms := atoms1, bonds := bonds1, positionMatrix := pos1 },
           s.bondsMade)

/-- One call made by the topology collaborator during accumulation: either
`add_reaction(*fgs)` or `add_periodic_reaction(direction, *fgs)`, the
functional groups given by index into the molecule's `func_groups`. -/
inductive Cmd where
  | react (idxs : List Nat)
  | periodic (direction : ℤ × ℤ × ℤ) (idxs : List Nat)
deriving DecidableEq, Repr

/-- Execute one accumulation call. -/
def step (s : ReactorState) : Cmd → Except PyErr ReactorState
  | .react idxs => addReaction s idxs
  | .periodic d idxs => addPeriodicReaction s d idxs

/-- Execute a sequence of accumulation calls. -/
def runCmds : List Cmd → ReactorState → Except PyErr ReactorState
  | [], s => .ok s
  | c :: rest, s => (step s c).bind (runCmds rest)

/-- `true` exactly when a reaction outcome is a failed `assert`. -/
def hitsAssert : Except PyErr ReactorState → Bool
  | .error .assertionError => true
  | _ => false

/-- `true` exactly when a reaction outcome is a success. -/
def isOkB : Except PyErr ReactorState → Bool
  | .ok _ => true
  | _ => false

/-- Verification predicate: the invariant every successful accumulation step
preserves — the staged-deletion set only grows, and the `_bonds_made` counter
and the bond list grow in lockstep by the same amount. -/
def Inv (s s' : ReactorState) : Prop :=
  s.deleterIds ⊆ s'.deleterIds ∧
  ∃ k, s'.bondsMade = s.bondsMade + k ∧ s'.bonds.length = s.bonds.length + k

/-! ## The functional-group type registry (`fg_types`, lines 941-1105) -/

/-- `Match` (lines 136-181): a SMARTS query and the maximum number of atoms
it contributes per functional group. -/
structure MatchRule where
  smarts : String
  n : Nat
deriving DecidableEq, Repr

/-- The data of one `FGType` registry entry (lines 184-252).  The source's
`FGType.__init__` also takes a `name` parameter, which every literal in the
`fg_types` table omits, and it assigns attributes (`_fg_smarts`, ...) that
are not listed in the class's `__slots__`; the table below records the
literal data of each entry. -/
structure FGTypeDef where
  fgSmarts : String
  bonderSmarts : List MatchRule
  delSmarts : List MatchRule
deriving DecidableEq, Repr

/-- The `fg_types` registry (lines 941-1105), keyed by functional-group
name. -/
def fgTypes : List (String × FGTypeDef) :=
  [ ("amine",
     { fgSmarts := "[N]([H])[H]",
       bonderSmarts := [⟨"[$([N]([H])[H])]", 1⟩],
       delSmarts := [⟨"[$([H][N][H])]", 2⟩] }),
    ("aldehyde",
     { fgSmarts := "[C](=[O])[H]",
       bonderSmarts := [⟨"[$([C](=[O])[H])]", 1⟩],
       delSmarts := [⟨"[$([O]=[C][H])]", 1⟩] }),
    ("carboxylic_acid",
     { fgSmarts := "[C](=[O])[O][H]",
       bonderSmarts := [⟨"[$([C](=[O])[O][H])]", 1⟩],
       delSmarts := [⟨"[$([H][O][C](=[O]))]", 1⟩,
                     ⟨"[$([O]([H])[C](=[O]))]", 1⟩] }),
    ("amide",
     { fgSmarts := "[C](=[O])[N]([H])[H]",
       bonderSmarts := [⟨"[$([C](=[O])[N]([H])[H])]", 1⟩],
       delSmarts := [⟨"[$([N]([H])([H])[C](=[O]))]", 1⟩,
                     ⟨"[$([H][N]([H])[C](=[O]))]", 2⟩] }),
    ("thioacid",
     { fgSmarts := "[C](=[O])[S][H]",
       bonderSmarts := [⟨"[$([C](=[O])[S][H])]", 1⟩],
       delSmarts := [⟨"[$([H][S][C](=[O]))]", 1⟩,
                     ⟨"[$([S]([H])[C](=[O]))]", 1⟩] }),
    ("alcohol",
     { fgSmarts := "[O][H]",
       bonderSmarts := [⟨"[$([O][H])]", 1⟩],
       delSmarts := [⟨"[$([H][O])]", 1⟩] }),
    ("thiol",
     { fgSmarts := "[S][H]",
       bonderSmarts := [⟨"[$([S][H])]", 1⟩],
       delSmarts := [⟨"[$([H][S])]", 1⟩] }),
    ("bromine",
     { fgSmarts := "*[Br]",
       bonderSmarts := [⟨"[$(*[Br])]", 1⟩],
       delSmarts := [⟨"[$([Br]*)]", 1⟩] }),
    ("iodine",
     { fgSmarts := "*[I]",
       bonderSmarts := [⟨"[$(*[I])]", 1⟩],
       delSmarts := [⟨"[$([I]*)]", 1⟩] }),
    ("alkyne",
     { fgSmarts := "[C]#[C][H]",
       bonderSmarts := [⟨"[$([C]([H])#[C])]", 1⟩],
       delSmarts := [⟨"[$([H][C]#[C])]", 1⟩] }),
    ("terminal_alkene",
     { fgSmarts := "[C]=[C]([H])[H]",
       bonderSmarts := [⟨"[$([C]=[C]([H])[H])]", 1⟩],
       delSmarts := [⟨"[$([H][C]([H])=[C])]", 2⟩,
                     ⟨"[$([C](=[C])([H])[H])]", 1⟩] }),
    ("boronic_acid",
     { fgSmarts := "[B]([O][H])[O][H]",
       bonderSmarts := [⟨"[$([B]([O][H])[O][H])]", 1⟩],
       delSmarts := [⟨"[$([O]([H])[B][O][H])]", 2⟩,
                     ⟨"[$([H][O][B][O][H])]", 2⟩] }),
    ("amine2",
     { fgSmarts := "[N]([H])[H]",
       bonderSmarts := [⟨"[$([N]([H])[H])]", 1⟩],
       delSmarts := [⟨"[$([H][N][H])]", 1⟩] }),
    ("secondary_amine",
     { fgSmarts := "[H][N]([#6])[#6]",
       bonderSmarts := [⟨"[$([N]([H])([#6])[#6])]", 1⟩],
       delSmarts := [⟨"[$([H][N]([#6])[#6])]", 1⟩] }),
    ("diol",
     { fgSmarts := "[H][O][#6]~[#6][O][H]",
       bonderSmarts := [⟨"[$([O]([H])[#6]~[#6][O][H])]", 2⟩],
       delSmarts := [⟨"[$([H][O][#6]~[#6][O][H])]", 2⟩] }),
    ("difluorene",
     { fgSmarts := "[F][#6]~[#6][F]",
       bonderSmarts := [⟨"[$([#6]([F])~[#6][F])]", 2⟩],
       delSmarts := [⟨"[$([F][#6]~[#6][F])]", 2⟩] }),
    ("dibromine",
     { fgSmarts := "[Br][#6]~[#6][Br]",
       bonderSmarts := [⟨"[$([#6]([Br])~[#6][Br])]", 2⟩],
       delSmarts := [⟨"[$([Br][#6]~[#6][Br])]", 2⟩] }),
    ("alkyne2",
     { fgSmarts := "[C]#[C][H]",
       bonderSmarts := [⟨"[$([C]#[C][H])]", 1⟩],
       delSmarts := [⟨"[$([H][C]#[C])]", 1⟩,
                     ⟨"[$([C](#[C])[H])]", 1⟩] }),
    ("ring_amine",
     { fgSmarts := "[N]([H])([H])[#6]~[#6]([H])~[#6R1]",
       bonderSmarts := [⟨"[$([N]([H])([H])[#6]~[#6]([H])~[#6R1])]", 1⟩,
                        ⟨"[$([#6]([H])(~[#6R1])~[#6][N]([H])[H])]", 1⟩],
       delSmarts := [⟨"[$([H][N]([H])[#6]~[#6]([H])~[#6R1])]", 2⟩,
                     ⟨"[$([H][#6](~[#6R1])~[#6][N]([H])[H])]", 1⟩] }) ]

/-- The dict subscription `fg_types[fg_name]` (line 280): a plain Python
`dict` lookup, which raises `KeyError` when the name is absent.  The lookup
is a read of a constant table: it takes no molecule state, so it can mutate
no atom or bond list. -/
def fgTypesLookup (name : String) : Except PyErr FGTypeDef :=
  match fgTypes.lookup name with
  | some t => .ok t
  | none => .error (.keyError name)

/-! ## `FGType.get_functional_groups` (lines 254-328) -/

/-- A molecular graph handed to the matcher (the `Molecule` class is not
under `src/`; for the matcher only its identity matters, since the method
body faults before reading it). -/
structure MoleculeGraph where
  atoms : List Atom
  bonds : List Bond
deriving DecidableEq

/-- `FGType.get_functional_groups(self, mol)` (lines 254-328).  The body's
first statement (line 274) is `fg_names = sorted(fg_names)`: `fg_names` is a
local variable of the method (it is assigned by that very statement) that is
read before any assignment, so every call raises `UnboundLocalError` before
anything else runs.  (The remainder of the body is equally foreign to the
class: it calls `self.to_rdkit_mol()` and reads `self.atoms`, neither of
which `FGType` defines; the body appears to have been transplanted from a
`Molecule` method with a `fg_names` parameter.)  The embedding therefore
returns that error unconditionally. -/
def getFunctionalGroups (_self : FGTypeDef) (_mol : MoleculeGraph) :
    Except PyErr (List FunctionalGroup) :=
  .error (.unboundLocal "fg_names")

/-! ## `ConstructedMolecule.add_conformer` (constructed_molecule.py 295-359) -/

/-- The error raised by molecule assembly: `ConstructionError`
(constructed_molecule.py line 147), wrapping the originating exception
(`raise ConstructionError(errormsg) from ex`, line 346). -/
inductive CtorErr where
  | constructionError (cause : PyErr)
deriving DecidableEq, Repr

/-- The attributes of a `ConstructedMolecule` relevant to `add_conformer`:
`_mol` (the rdkit molecule, modelled from the spec as its list of conformers,
i.e. of per-atom coordinate sets, since rdkit is external), plus the
attributes the docstring at lines 318-321 says `Topology.construct` creates:
`func_groups` and `bonds_made`. -/
structure CMol where
  mol : List (List Vec3)
  funcGroups : List FunctionalGroup
  bondsMade : Nat
deriving DecidableEq

/-- Lines 350-352: `self.func_groups = tuple(...)` and the loop assigning
`func_group.id = id_` for each position. -/
def reindexFGs (fgs : List FunctionalGroup) : List FunctionalGroup :=
  fgs.enum.map (fun p => { p.2 with fgId := p.1 })

/-- `ConstructedMolecule.add_conformer` (lines 295-359).  The collaborator
`self.topology.construct(self, bb_conformers)` is external (no topology
module is under `src/`); it is modelled as a function from the molecule state
to the molecule state it leaves behind — Python mutates `self` in place, so a
raising `construct` can leave a partially mutated state — together with
`some e` when it raised `e`.  `add_conformer` saves `original_mol = self._mol`
first; on failure it restores ONLY `self._mol` (line 324) and raises
`ConstructionError` wrapping the original exception; on success it reassigns
functional-group ids, copies the new molecule's first conformer, appends it
to the original molecule (`AddConformer`, whose new id is modelled as the
prior conformer count) and restores `self._mol = original_mol`.  The result
is the visible molecule state paired with the call's outcome. -/
def addConformer (construct : CMol → CMol × Option PyErr) (m : CMol) :
    CMol × Except CtorErr Nat :=
  let originalMol := m.mol
  match construct m with
  | (m1, some e) =>
      ({ m1 with mol := originalMol }, .error (.constructionError e))
  | (m1, none) =>
      let m2 := { m1 with funcGroups := reindexFGs m1.funcGroups }
      let newConf := m2.mol.headD []
      let newId := originalMol.length
      ({ m2 with mol := originalMol ++ [newConf] }, .ok newId)

/-! ## Concrete example inputs

Small concrete molecules used to evaluate the embedded operations on
closed inputs. -/

/-- An amine functional group: atoms N(id 0), H(id 1), H(id 2); bonder the
nitrogen; deleters the two hydrogens (per the `amine` registry entry). -/
def amineA : FunctionalGroup :=
  { atoms := [⟨0, 7⟩, ⟨1, 1⟩, ⟨2, 1⟩],
    bonders := [⟨0, 7⟩],
    deleters := [⟨1, 1⟩, ⟨2, 1⟩],
    fgTypeName := "amine" }

/-- A second amine functional group on atoms 3, 4, 5. -/
def amineB : FunctionalGroup :=
  { atoms := [⟨3, 7⟩, ⟨4, 1⟩, ⟨5, 1⟩],
    bonders := [⟨3, 7⟩],
    deleters := [⟨4, 1⟩, ⟨5, 1⟩],
    fgTypeName := "amine" }

/-- An aldehyde functional group on atoms 3 (C), 4 (O), 5 (H); bonder the
carbon; deleter the oxygen (per the `aldehyde` registry entry). -/
def aldehydeB : FunctionalGroup :=
  { atoms := [⟨3, 6⟩, ⟨4, 8⟩, ⟨5, 1⟩],
    bonders := [⟨3, 6⟩],
    deleters := [⟨4, 8⟩],
    fgTypeName := "aldehyde" }

/-- A molecule of two placed amine building blocks, ready to react:
the end-to-end scenario of spec section 8. -/
def twoAmines : ReactorState :=
  { atoms := [⟨0, 7⟩, ⟨1, 1⟩, ⟨2, 1⟩, ⟨3, 7⟩, ⟨4, 1⟩, ⟨5, 1⟩],
    bonds := [],
    positionMatrix :=
      [(0, 0, 0), (1, 0, 0), (0, 1, 0), (4, 0, 0), (5, 0, 0), (4, 1, 0)],
    funcGroups := [amineA, amineB],
    deleterIds := ∅,
    bondsMade := 0 }

/-- A molecule with one amine and one aldehyde functional group. -/
def amineAldehyde : ReactorState :=
  { atoms := [⟨0, 7⟩, ⟨1, 1⟩, ⟨2, 1⟩, ⟨3, 6⟩, ⟨4, 8⟩, ⟨5, 1⟩],
    bonds := [],
    positionMatrix :=
      [(0, 0, 0), (1, 0, 0), (0, 1, 0), (4, 0, 0), (5, 0, 0), (4, 1, 0)],
    funcGroups := [amineA, aldehydeB],
    deleterIds := ∅,
    bondsMade := 0 }

/-- A ring-amine functional group on atoms C(id 0) and N(id 1) (only the
bonders matter to `_ring_amine_with_ring_amine`). -/
def ringAmineA : FunctionalGroup :=
  { atoms := [⟨0, 6⟩, ⟨1, 7⟩],
    bonders := [⟨0, 6⟩, ⟨1, 7⟩],
    deleters := [],
    fgTypeName := "ring_amine" }

/-- A second ring-amine functional group on atoms C(id 2) and N(id 3). -/
def ringAmineB : FunctionalGroup :=
  { atoms := [⟨2, 6⟩, ⟨3, 7⟩],
    bonders := [⟨2, 6⟩, ⟨3, 7⟩],
    deleters := [],
    fgTypeName := "ring_amine" }

/-- A molecule with two ring-amine functional groups at known coordinates:
C0 at the origin, N1 at (2,0,0), C2 at (0,4,0), N3 at (2,4,0). -/
def twoRingAmines : ReactorState :=
  { atoms := [⟨0, 6⟩, ⟨1, 7⟩, ⟨2, 6⟩, ⟨3, 7⟩],
    bonds := [],
    positionMatrix := [(0, 0, 0), (2, 0, 0), (0, 4, 0), (2, 4, 0)],
    funcGroups := [ringAmineA, ringAmineB],
    deleterIds := ∅,
    bondsMade := 0 }

/-- A `Topology.construct` collaborator that mutates the molecule's
`bonds_made` and `_mol` attributes and then raises `ValueError`: a
re-construction that fails midway through. -/
def failingConstruct (m : CMol) : CMol × Option PyErr :=
  ({ m with bondsMade := m.bondsMade + 99, mol := [] }, some .valueError)

/-- A one-conformer constructed molecule prior to `add_conformer`. -/
def priorMol : CMol :=
  { mol := [[(0, 0, 0), (1, 0, 0)]],
    funcGroups := [amineA],
    bondsMade := 1 }

/-- The single bond the default reaction of `twoAmines` creates. -/
def nnBond : Bond :=
  { atom1 := .atom ⟨0, 7⟩, atom2 := .atom ⟨3, 7⟩, order := 1 }

/-- The state of `twoAmines` after `add_reaction` on its two groups: the four
hydrogens staged, both groups depleted, one N-N single bond appended. -/
def reactedAmines : ReactorState :=
  { atoms := twoAmines.atoms,
    bonds := [nnBond],
    positionMatrix := twoAmines.positionMatrix,
    funcGroups :=
      [{ atoms := [⟨0, 7⟩], bonders := [⟨0, 7⟩], deleters := [],
         fgTypeName := "amine" },
       { atoms := [⟨3, 7⟩], bonders := [⟨3, 7⟩], deleters := [],
         fgTypeName := "amine" }],
    deleterIds := {1, 2, 4, 5},
    bondsMade := 1 }

/-- The state of `reactedAmines` after `finalize`: all four hydrogens and
their position rows removed. -/
def finalizedAmines : ReactorState :=
  { atoms := [⟨0, 7⟩, ⟨3, 7⟩],
    bonds := [nnBond],
    positionMatrix := [(0, 0, 0), (4, 0, 0)],
    funcGroups := reactedAmines.funcGroups,
    deleterIds := {1, 2, 4, 5},
    bondsMade := 1 }

/-- A molecule with a diol functional group (bonder oxygens 0 and 1) and a
dibromine functional group (bonder carbons 2 and 3). -/
def diolDibromine : ReactorState :=
  { atoms := [⟨0, 8⟩, ⟨1, 8⟩, ⟨2, 6⟩, ⟨3, 6⟩],
    bonds := [],
    positionMatrix := [(0, 0, 0), (1, 0, 0), (0, 2, 0), (1, 2, 0)],
    funcGroups :=
      [{ atoms := [⟨0, 8⟩, ⟨1, 8⟩], bonders := [⟨0, 8⟩, ⟨1, 8⟩],
         deleters := [], fgTypeName := "diol" },
       { atoms := [⟨2, 6⟩, ⟨3, 6⟩], bonders := [⟨2, 6⟩, ⟨3, 6⟩],
         deleters := [], fgTypeName := "dibromine" }],
    deleterIds := ∅,
    bondsMade := 0 }

/-! # Theorems -/

/-! ## The default reaction path -/

/-- Evaluation of one staging-loop iteration on a present functional group. -/
theorem stageAt_ok (s : ReactorState) (i : Nat) (fg : FunctionalGroup)
    (h : s.funcGroups[i]? = some fg) :
    stageAt s i = .ok
      { s with
        deleterIds := s.deleterIds ∪ (fg.deleters.map Atom.id).toFinset,
        funcGroups := s.funcGroups.set i
          { fg with
            atoms := fg.atoms.filter (fun a => decide
              (a.id ∉ s.deleterIds ∪ (fg.deleters.map Atom.id).toFinset)),
            deleters := [] } } := by
  simp [stageAt, h]

/-- The full behavior of the default path of `add_reaction` on two distinct
functional groups whose reaction key has no registered custom procedure and
whose bonder tuples are nonempty: all deleter atoms of both groups are staged
for removal, each group's atom tuple is shrunk to exclude the atoms staged so
far, each group's deleter tuple is cleared, exactly one bond is appended
between the two first bonder atoms with the order looked up in the bond-order
table, and `_bonds_made` increases by exactly 1. -/
theorem addReaction_default_spec
    (s : ReactorState) (i j : Nat) (fgi fgj : FunctionalGroup)
    (b1 : Atom) (bs1 : List Atom) (b2 : Atom) (bs2 : List Atom)
    (hi : s.funcGroups[i]? = some fgi)
    (hj : s.funcGroups[j]? = some fgj)
    (hij : i ≠ j)
    (hcust : customReactions.lookup
      (reactionKey [fgi.fgTypeName, fgj.fgTypeName]) = none)
    (hb1 : fgi.bonders = b1 :: bs1)
    (hb2 : fgj.bonders = b2 :: bs2) :
    addReaction s [i, j] = .ok
      { s with
        deleterIds := (s.deleterIds ∪ (fgi.deleters.map Atom.id).toFinset)
            ∪ (fgj.deleters.map Atom.id).toFinset,
        funcGroups := (s.funcGroups.set i
          { fgi with
            atoms := fgi.atoms.filter (fun a => decide
              (a.id ∉ s.deleterIds ∪ (fgi.deleters.map Atom.id).toFinset)),
            deleters := [] }).set j
          { fgj with
            atoms := fgj.atoms.filter (fun a => decide
              (a.id ∉ (s.deleterIds ∪ (fgi.deleters.map Atom.id).toFinset)
                  ∪ (fgj.deleters.map Atom.id).toFinset)),
            deleters := [] },
        bonds := s.bonds ++
          [{ atom1 := .atom b1, atom2 := .atom b2,
             order := lookupBondOrder
               (reactionKey [fgi.fgTypeName, fgj.fgTypeName]),
             direction := none }],
        bondsMade := s.bondsMade + 1 } := by
  have hilen : i < s.funcGroups.length := (List.getElem?_eq_some.mp hi).1
  have hjlen : j < s.funcGroups.length := (List.getElem?_eq_some.mp hj).1
  have hres : resolveFGs s [i, j] = some [fgi, fgj] := by
    simp [resolveFGs, hi, hj]
  have h1 := stageAt_ok s i fgi hi
  set fgi' : FunctionalGroup :=
    { fgi with
      atoms := fgi.atoms.filter (fun a => decide
        (a.id ∉ s.deleterIds ∪ (fgi.deleters.map Atom.id).toFinset)),
      deleters := [] } with hfgi'
  set s1 : ReactorState :=
    { s with
      deleterIds := s.deleterIds ∪ (fgi.deleters.map Atom.id).toFinset,
      funcGroups := s.funcGroups.set i fgi' } with hs1
  have hj1 : s1.funcGroups[j]? = some fgj := by
    rw [hs1]
    simpa [List.getElem?_set_ne hij] using hj
  have h2 := stageAt_ok s1 j fgj hj1
  set fgj' : FunctionalGroup :=
    { fgj with
      atoms := fgj.atoms.filter (fun a => decide
        (a.id ∉ (s.deleterIds ∪ (fgi.deleters.map Atom.id).toFinset)
            ∪ (fgj.deleters.map Atom.id).toFinset)),
      deleters := [] } with hfgj'
  set s2 : ReactorState :=
    { s with
      deleterIds := (s.deleterIds ∪ (fgi.deleters.map Atom.id).toFinset)
          ∪ (fgj.deleters.map Atom.id).toFinset,
      funcGroups := (s.funcGroups.set i fgi').set j fgj' } with hs2
  have hstage : stageAll s [i, j] = .ok s2 := by
    simp only [stageAll, h1, Except.bind, h2]
  have hi2 : s2.funcGroups[i]? = some fgi' := by
    rw [hs2]
    show ((s.funcGroups.set i fgi').set j fgj')[i]? = some fgi'
    rw [List.getElem?_set_ne (Ne.symm hij), List.getElem?_set_self hilen]
  have hj2 : s2.funcGroups[j]? = some fgj' := by
    rw [hs2]
    show ((s.funcGroups.set i fgi').set j fgj')[j]? = some fgj'
    rw [List.getElem?_set_self (by simpa using hjlen)]
  have e1 : fgi'.bonders = b1 :: bs1 := hb1
  have e2 : fgj'.bonders = b2 :: bs2 := hb2
  have htail : defaultTail s2 i j
      (reactionKey [fgi.fgTypeName, fgj.fgTypeName]) none = .ok
      { s2 with
        bonds := s2.bonds ++
          [{ atom1 := .atom b1, atom2 := .atom b2,
             order := lookupBondOrder
               (reactionKey [fgi.fgTypeName, fgj.fgTypeName]),
             direction := none }],
        bondsMade := s2.bondsMade + 1 } := by
    simp only [defaultTail, hi2, hj2, e1, e2, hb1, hb2]
  simp only [addReaction, hres]
  simp only [List.map_cons, List.map_nil, hcust]
  rw [hstage]
  simp only [Except.bind]
  rw [htail, hs2]

/-- Evaluation of one staging-loop iteration of `add_periodic_reaction` on a
present functional group: the deleter ids are staged and the deleter tuple
cleared, but the atom tuple is left untouched. -/
theorem periodicStageAt_ok (s : ReactorState) (i : Nat)
    (fg : FunctionalGroup) (h : s.funcGroups[i]? = some fg) :
    periodicStageAt s i = .ok
      { s with
        deleterIds := s.deleterIds ∪ (fg.deleters.map Atom.id).toFinset,
        funcGroups := s.funcGroups.set i { fg with deleters := [] } } := by
  simp [periodicStageAt, h]

/-- The full behavior of `add_periodic_reaction` on two distinct functional
groups with nonempty bonder tuples (for any reaction key: the periodic custom
registry is empty, so the periodic default path always runs): all deleter
atoms of both groups are staged, each group's deleter tuple is cleared while
its atom tuple is left UNCHANGED, and exactly one periodic bond carrying
`direction` is appended between the two first bonder atoms with the order
from the shared bond-order table, incrementing `_bonds_made` by 1. -/
theorem addPeriodicReaction_spec
    (s : ReactorState) (direction : ℤ × ℤ × ℤ) (i j : Nat)
    (fgi fgj : FunctionalGroup)
    (b1 : Atom) (bs1 : List Atom) (b2 : Atom) (bs2 : List Atom)
    (hi : s.funcGroups[i]? = some fgi)
    (hj : s.funcGroups[j]? = some fgj)
    (hij : i ≠ j)
    (hb1 : fgi.bonders = b1 :: bs1)
    (hb2 : fgj.bonders = b2 :: bs2) :
    addPeriodicReaction s direction [i, j] = .ok
      { s with
        deleterIds := (s.deleterIds ∪ (fgi.deleters.map Atom.id).toFinset)
            ∪ (fgj.deleters.map Atom.id).toFinset,
        funcGroups := (s.funcGroups.set i { fgi with deleters := [] }).set j
          { fgj with deleters := [] },
        bonds := s.bonds ++
          [{ atom1 := .atom b1, atom2 := .atom b2,
             order := lookupBondOrder
               (reactionKey [fgi.fgTypeName, fgj.fgTypeName]),
             direction := some direction }],
        bondsMade := s.bondsMade + 1 } := by
  have hilen : i < s.funcGroups.length := (List.getElem?_eq_some.mp hi).1
  have hjlen : j < s.funcGroups.length := (List.getElem?_eq_some.mp hj).1
  have hres : resolveFGs s [i, j] = some [fgi, fgj] := by
    simp [resolveFGs, hi, hj]
  have h1 := periodicStageAt_ok s i fgi hi
  set fgi' : FunctionalGroup := { fgi with deleters := [] } with hfgi'
  set s1 : ReactorState :=
    { s with
      deleterIds := s.deleterIds ∪ (fgi.deleters.map Atom.id).toFinset,
      funcGroups := s.funcGroups.set i fgi' } with hs1
  have hj1 : s1.funcGroups[j]? = some fgj := by
    rw [hs1]
    simpa [List.getElem?_set_ne hij] using hj
  have h2 := periodicStageAt_ok s1 j fgj hj1
  set fgj' : FunctionalGroup := { fgj with deleters := [] } with hfgj'
  set s2 : ReactorState :=
    { s with
      deleterIds := (s.deleterIds ∪ (fgi.deleters.map Atom.id).toFinset)
          ∪ (fgj.deleters.map Atom.id).toFinset,
      funcGroups := (s.funcGroups.set i fgi').set j fgj' } with hs2
  have hstage : periodicStageAll s [i, j] = .ok s2 := by
    simp only [periodicStageAll, h1, Except.bind, h2]
  have hi2 : s2.funcGroups[i]? = some fgi' := by
    rw [hs2]
    show ((s.funcGroups.set i fgi').set j fgj')[i]? = some fgi'
    rw [List.getElem?_set_ne (Ne.symm hij), List.getElem?_set_self hilen]
  have hj2 : s2.funcGroups[j]? = some fgj' := by
    rw [hs2]
    show ((s.funcGroups.set i fgi').set j fgj')[j]? = some fgj'
    rw [List.getElem?_set_self (by simpa using hjlen)]
  have e1 : fgi'.bonders = b1 :: bs1 := hb1
  have e2 : fgj'.bonders = b2 :: bs2 := hb2
  have htail : defaultTail s2 i j
      (reactionKey [fgi.fgTypeName, fgj.fgTypeName]) (some direction) = .ok
      { s2 with
        bonds := s2.bonds ++
          [{ atom1 := .atom b1, atom2 := .atom b2,
             order := lookupBondOrder
               (reactionKey [fgi.fgTypeName, fgj.fgTypeName]),
             direction := some direction }],
        bondsMade := s2.bondsMade + 1 } := by
    simp only [defaultTail, hi2, hj2, e1, e2, hb1, hb2]
  simp only [addPeriodicReaction, hres]
  rw [hstage]
  simp only [Except.bind, List.map_cons, List.map_nil,
    periodicCustomReactions, List.lookup_nil]
  rw [htail, hs2]

/-- **C1.**  For every call of `Reactor.add_reaction` with two (distinct,
nonempty-bondered) functional groups whose reaction key has no registered
custom procedure, the reactor stages every deleter atom of both groups for
removal, shrinks each group's atom tuple to exclude the atoms staged so far,
clears each group's deleter tuple, appends exactly one new `Bond` between the
first bonder atom of the first group and the first bonder atom of the second
group with bond order taken from the bond-order override table (1 when the
key is absent), and increments the bonds-made counter by exactly 1. -/
theorem c1_default_reaction
    (s : ReactorState) (i j : Nat) (fgi fgj : FunctionalGroup)
    (b1 : Atom) (bs1 : List Atom) (b2 : Atom) (bs2 : List Atom)
    (hi : s.funcGroups[i]? = some fgi)
    (hj : s.funcGroups[j]? = some fgj)
    (hij : i ≠ j)
    (hcust : customReactions.lookup
      (reactionKey [fgi.fgTypeName, fgj.fgTypeName]) = none)
    (hb1 : fgi.bonders = b1 :: bs1)
    (hb2 : fgj.bonders = b2 :: bs2) :
    addReaction s [i, j] = .ok
      { s with
        deleterIds := (s.deleterIds ∪ (fgi.deleters.map Atom.id).toFinset)
            ∪ (fgj.deleters.map Atom.id).toFinset,
        funcGroups := (s.funcGroups.set i
          { fgi with
            atoms := fgi.atoms.filter (fun a => decide
              (a.id ∉ s.deleterIds ∪ (fgi.deleters.map Atom.id).toFinset)),
            deleters := [] }).set j
          { fgj with
            atoms := fgj.atoms.filter (fun a => decide
              (a.id ∉ (s.deleterIds ∪ (fgi.deleters.map Atom.id).toFinset)
                  ∪ (fgj.deleters.map Atom.id).toFinset)),
            deleters := [] },
        bonds := s.bonds ++
          [{ atom1 := .atom b1, atom2 := .atom b2,
             order := lookupBondOrder
               (reactionKey [fgi.fgTypeName, fgj.fgTypeName]),
             direction := none }],
        bondsMade := s.bondsMade + 1 } :=
  addReaction_default_spec s i j fgi fgj b1 bs1 b2 bs2 hi hj hij hcust hb1 hb2

/-- Witness for C1: the amine + aldehyde molecule.  The amine/aldehyde key
has no custom procedure but a bond-order override of 2, so the appended bond
is the double bond N0=C3; the four deleter atoms 1, 2, 4 are staged; both
groups' atom tuples shrink and their deleter tuples clear; one bond is made. -/
theorem c1_default_reaction_witness :
    addReaction amineAldehyde [0, 1] = .ok
      { atoms := [⟨0, 7⟩, ⟨1, 1⟩, ⟨2, 1⟩, ⟨3, 6⟩, ⟨4, 8⟩, ⟨5, 1⟩],
        bonds := [{ atom1 := .atom ⟨0, 7⟩, atom2 := .atom ⟨3, 6⟩,
                    order := 2, direction := none }],
        positionMatrix :=
          [(0, 0, 0), (1, 0, 0), (0, 1, 0), (4, 0, 0), (5, 0, 0), (4, 1, 0)],
        funcGroups :=
          [{ atoms := [⟨0, 7⟩], bonders := [⟨0, 7⟩], deleters := [],
             fgTypeName := "amine" },
           { atoms := [⟨3, 6⟩, ⟨5, 1⟩], bonders := [⟨3, 6⟩], deleters := [],
             fgTypeName := "aldehyde" }],
        deleterIds := {1, 2, 4},
        bondsMade := 1 } := by
  rw [c1_default_reaction amineAldehyde 0 1 amineA aldehydeB
    ⟨0, 7⟩ [] ⟨3, 6⟩ [] rfl rfl (by decide) (by decide) rfl rfl]
  decide

/-! ## Reaction-key algebra -/

/-- Membership in a reaction key: the pairs of a key are exactly the names of
the input list with their multiplicities. -/
theorem mem_reactionKey (l : List String) (p : String × Nat) :
    p ∈ reactionKey l ↔ p.1 ∈ l ∧ p.2 = l.count p.1 := by
  unfold reactionKey
  rw [(List.perm_insertionSort keyLE _).mem_iff]
  simp only [List.mem_map, List.mem_dedup]
  constructor
  · rintro ⟨n, hn, rfl⟩
    exact ⟨hn, rfl⟩
  · rintro ⟨h1, h2⟩
    exact ⟨p.1, h1, by rw [← h2]⟩

/-- Two lists of names with equal reaction keys have equal multiplicities. -/
theorem count_eq_of_reactionKey_eq {l1 l2 : List String}
    (h : reactionKey l1 = reactionKey l2) (n : String) :
    l1.count n = l2.count n := by
  by_cases h1 : n ∈ l1
  · have hm : (n, l1.count n) ∈ reactionKey l1 :=
      (mem_reactionKey l1 (n, l1.count n)).mpr ⟨h1, rfl⟩
    rw [h] at hm
    exact ((mem_reactionKey l2 (n, l1.count n)).mp hm).2
  · by_cases h2 : n ∈ l2
    · have hm : (n, l2.count n) ∈ reactionKey l2 :=
        (mem_reactionKey l2 (n, l2.count n)).mpr ⟨h2, rfl⟩
      rw [← h] at hm
      exact absurd ((mem_reactionKey l1 (n, l2.count n)).mp hm).1 h1
    · rw [List.count_eq_zero_of_not_mem h1, List.count_eq_zero_of_not_mem h2]

/-- Permuting the input names leaves the reaction key unchanged. -/
theorem reactionKey_eq_of_perm {l1 l2 : List String} (h : l1.Perm l2) :
    reactionKey l1 = reactionKey l2 := by
  unfold reactionKey
  have hmap : l1.dedup.map (fun n => (n, l1.count n)) =
      l1.dedup.map (fun n => (n, l2.count n)) := by
    apply List.map_congr_left
    intro n _
    rw [h.count_eq n]
  have hperm : (l1.dedup.map (fun n => (n, l1.count n))).Perm
      (l2.dedup.map (fun n => (n, l2.count n))) := by
    rw [hmap]
    exact (h.dedup).map _
  exact List.eq_of_perm_of_sorted
    ((List.perm_insertionSort keyLE _).trans
      (hperm.trans (List.perm_insertionSort keyLE _).symm))
    (List.sorted_insertionSort keyLE _)
    (List.sorted_insertionSort keyLE _)

/-- **C3.**  Reaction keys built from two finite sequences of
functional-group names are equal if and only if the sequences are
permutations of each other as multisets; in particular the key of
`('amine', 'aldehyde', 'amine')` equals the key of
`('amine', 'amine', 'aldehyde')`, and the key of `('amine', 'aldehyde')`
differs from the key of `('amine', 'aldehyde', 'amine')`. -/
theorem c3_reaction_key_multiset :
    (∀ l1 l2 : List String, reactionKey l1 = reactionKey l2 ↔ l1.Perm l2) ∧
    reactionKey ["amine", "aldehyde", "amine"] =
      reactionKey ["amine", "amine", "aldehyde"] ∧
    decide (reactionKey ["amine", "aldehyde"] =
      reactionKey ["amine", "aldehyde", "amine"]) = false := by
  refine ⟨fun l1 l2 =>
    ⟨fun h => List.perm_iff_count.mpr (count_eq_of_reactionKey_eq h),
     reactionKey_eq_of_perm⟩, ?_, ?_⟩ <;> decide

/-! ## The diol/dihalogen greedy dedup -/

/-- The greedy dedup loop admits each carbon and each oxygen at most once:
every kept pair avoids the already-seen sets, and any two kept pairs have
distinct carbons and distinct oxygens. -/
theorem dedupPairs_spec (l : List (ℚ × Nat × Nat)) :
    ∀ sc so : List Nat,
      (∀ p ∈ dedupPairs l sc so, p.1 ∉ sc ∧ p.2 ∉ so) ∧
      List.Pairwise (fun p q : Nat × Nat => p.1 ≠ q.1 ∧ p.2 ≠ q.2)
        (dedupPairs l sc so) := by
  induction l with
  | nil => intro sc so; simp [dedupPairs]
  | cons hd tl ih =>
    intro sc so
    obtain ⟨d, c, o⟩ := hd
    by_cases hco : c ∉ sc ∧ o ∉ so
    · simp only [dedupPairs, if_pos hco]
      constructor
      · intro p hp
        rcases List.mem_cons.mp hp with rfl | hp
        · exact hco
        · have h := (ih (c :: sc) (o :: so)).1 p hp
          exact ⟨fun hc => h.1 (List.mem_cons_of_mem _ hc),
                 fun ho => h.2 (List.mem_cons_of_mem _ ho)⟩
      · refine List.pairwise_cons.mpr ⟨?_, (ih (c :: sc) (o :: so)).2⟩
        intro q hq
        have h := (ih (c :: sc) (o :: so)).1 q hq
        constructor
        · intro hcq
          exact h.1 (by rw [← hcq]; exact List.mem_cons_self _ _)
        · intro hoq
          exact h.2 (by rw [← hoq]; exact List.mem_cons_self _ _)
    · simp only [dedupPairs, if_neg hco]
      exact ih sc so

/-- The deduplicated pair list of `_diol_with_dihalogen` repeats no carbon
and no oxygen. -/
theorem dedupedPairsOf_pairwise (s : ReactorState)
    (fg1 fg2 : FunctionalGroup) :
    List.Pairwise (fun p q : Nat × Nat => p.1 ≠ q.1 ∧ p.2 ≠ q.2)
      (dedupedPairsOf s fg1 fg2) := by
  unfold dedupedPairsOf
  exact (dedupPairs_spec _ _ _).2

/-- **C10.**  For every reactor state and functional-group pair,
`_diol_with_dihalogen` never fails its assertion `c1 != c2 and o1 != o2`:
whenever the greedy distance-sorted deduplicated pair list contains at least
two pairs, the two selected carbons and the two selected oxygens are
distinct, and the procedure succeeds exactly when there are at least two
deduplicated pairs (its only failure mode is having fewer). -/
theorem c10_diol_assert_safe (s : ReactorState) (fg1 fg2 : FunctionalGroup)
    (dihalogen : String) :
    hitsAssert (diolWithDihalogen s fg1 fg2 dihalogen) = false ∧
    isOkB (diolWithDihalogen s fg1 fg2 dihalogen) =
      decide (2 ≤ (dedupedPairsOf s fg1 fg2).length) := by
  unfold diolWithDihalogen
  rcases hd : dedupedPairsOf s fg1 fg2 with _ | ⟨⟨c1, o1⟩, _ | ⟨⟨c2, o2⟩, rest⟩⟩
  · simp [hitsAssert, isOkB]
  · simp [hitsAssert, isOkB]
  · have hpw := dedupedPairsOf_pairwise s fg1 fg2
    rw [hd] at hpw
    have hne : c1 ≠ c2 ∧ o1 ≠ o2 :=
      (List.pairwise_cons.mp hpw).1 (c2, o2) (List.mem_cons_self _ _)
    have hlen : decide (2 ≤ ((c1, o1) :: (c2, o2) :: rest).length) = true := by
      simp [Nat.le_add_left]
    simp [hitsAssert, isOkB, if_pos hne, hd, hlen]

/-! ## The functional-group matcher -/

/-- **C4.**  The functional-group matcher cannot run at all: every call of
`FGType.get_functional_groups` raises `UnboundLocalError` at its first
statement (`fg_names = sorted(fg_names)`, line 274, reads the local
`fg_names` before assignment), for every functional-group type and every
molecular graph.  In particular no call ever yields functional groups, so
the claimed deterministic matching output is unrealizable as written. -/
theorem c4_matcher_unbound_local (t : FGTypeDef) (mol : MoleculeGraph) :
    getFunctionalGroups t mol = .error (.unboundLocal "fg_names") := rfl

/-! ## Accumulation invariants -/

theorem inv_refl (s : ReactorState) : Inv s s := ⟨subset_rfl, 0, rfl, rfl⟩

theorem inv_trans {s1 s2 s3 : ReactorState} (h1 : Inv s1 s2)
    (h2 : Inv s2 s3) : Inv s1 s3 := by
  obtain ⟨hd1, k1, a1, b1⟩ := h1
  obtain ⟨hd2, k2, a2, b2⟩ := h2
  exact ⟨hd1.trans hd2, k1 + k2, by omega, by omega⟩

theorem bind_ok {x : Except PyErr ReactorState}
    {f : ReactorState → Except PyErr ReactorState} {s' : ReactorState}
    (h : x.bind f = .ok s') : ∃ s1, x = .ok s1 ∧ f s1 = .ok s' := by
  cases x with
  | error e => simp [Except.bind] at h
  | ok a => exact ⟨a, rfl, by simpa [Except.bind] using h⟩

theorem stageAt_inv {s s' : ReactorState} {i : Nat}
    (h : stageAt s i = .ok s') : Inv s s' := by
  unfold stageAt at h
  split at h
  · exact absurd h (by simp)
  · simp only [Except.ok.injEq] at h
    subst h
    exact ⟨Finset.subset_union_left, 0, rfl, rfl⟩

theorem stageAll_inv : ∀ {idxs : List Nat} {s s' : ReactorState},
    stageAll s idxs = .ok s' → Inv s s' := by
  intro idxs
  induction idxs with
  | nil =>
      intro s s' h
      simp only [stageAll, Except.ok.injEq] at h
      subst h
      exact inv_refl s
  | cons i rest ih =>
      intro s s' h
      obtain ⟨s1, hA, hB⟩ := bind_ok h
      exact inv_trans (stageAt_inv hA) (ih hB)

theorem periodicStageAt_inv {s s' : ReactorState} {i : Nat}
    (h : periodicStageAt s i = .ok s') : Inv s s' := by
  unfold periodicStageAt at h
  split at h
  · exact absurd h (by simp)
  · simp only [Except.ok.injEq] at h
    subst h
    exact ⟨Finset.subset_union_left, 0, rfl, rfl⟩

theorem periodicStageAll_inv : ∀ {idxs : List Nat} {s s' : ReactorState},
    periodicStageAll s idxs = .ok s' → Inv s s' := by
  intro idxs
  induction idxs with
  | nil =>
      intro s s' h
      simp only [periodicStageAll, Except.ok.injEq] at h
      subst h
      exact inv_refl s
  | cons i rest ih =>
      intro s s' h
      obtain ⟨s1, hA, hB⟩ := bind_ok h
      exact inv_trans (periodicStageAt_inv hA) (ih hB)

theorem defaultTail_inv {s s' : ReactorState} {i j : Nat}
    {key : List (String × Nat)} {d : Option (ℤ × ℤ × ℤ)}
    (h : defaultTail s i j key d = .ok s') : Inv s s' := by
  unfold defaultTail at h
  repeat' split at h
  all_goals
    first
      | (simp only [Except.ok.injEq] at h; subst h;
         exact ⟨subset_rfl, 1, rfl, by simp⟩)
      | simp at h

theorem diolWithDihalogen_inv {s s' : ReactorState}
    {fg1 fg2 : FunctionalGroup} {d : String}
    (h : diolWithDihalogen s fg1 fg2 d = .ok s') : Inv s s' := by
  unfold diolWithDihalogen at h
  repeat' split at h
  all_goals
    first
      | (simp only [Except.ok.injEq] at h; subst h;
         exact ⟨subset_rfl, 2, rfl, by simp⟩)
      | simp at h

theorem boronicAcidWithDiol_inv {s s' : ReactorState} {i j : Nat}
    (h : boronicAcidWithDiol s i j = .ok s') : Inv s s' := by
  unfold boronicAcidWithDiol at h
  obtain ⟨s1, hA, hB⟩ := bind_ok h
  refine inv_trans (stageAll_inv hA) ?_
  split at hB
  · -- both functional groups present: zeta-reduce the boron/diol lets,
    -- then case on the remaining if and bonder matches
    simp only [] at hB
    repeat' split at hB
    all_goals
      first
        | (simp only [Except.ok.injEq] at hB; subst hB;
           exact ⟨subset_rfl, 2, rfl, by simp⟩)
        | simp at hB
  · simp at hB

theorem ringAmineWithRingAmine_inv {s s' : ReactorState}
    {fg1 fg2 : FunctionalGroup}
    (h : ringAmineWithRingAmine s fg1 fg2 = .ok s') : Inv s s' := by
  unfold ringAmineWithRingAmine at h
  repeat' split at h
  all_goals
    first
      | (simp only [Except.ok.injEq] at h; subst h;
         exact ⟨subset_rfl, 12, rfl, by simp⟩)
      | simp at h

theorem runCustomRxn_inv {r : CustomRxn} {s s' : ReactorState}
    {idxs : List Nat} (h : runCustomRxn r s idxs = .ok s') : Inv s s' := by
  unfold runCustomRxn at h
  split at h
  · split at h
    · cases r with
      | boronicAcidWithDiol => exact boronicAcidWithDiol_inv h
      | diolWithDihalogen d => exact diolWithDihalogen_inv h
      | ringAmineWithRingAmine => exact ringAmineWithRingAmine_inv h
    · simp at h
  · simp at h

theorem addReaction_inv {s s' : ReactorState} {idxs : List Nat}
    (h : addReaction s idxs = .ok s') : Inv s s' := by
  unfold addReaction at h
  split at h
  · simp at h
  · simp only [] at h
    split at h
    · exact runCustomRxn_inv h
    · obtain ⟨s1, hA, hB⟩ := bind_ok h
      refine inv_trans (stageAll_inv hA) ?_
      split at hB
      · exact defaultTail_inv hB
      · simp at hB

theorem addPeriodicReaction_inv {s s' : ReactorState}
    {d : ℤ × ℤ × ℤ} {idxs : List Nat}
    (h : addPeriodicReaction s d idxs = .ok s') : Inv s s' := by
  unfold addPeriodicReaction at h
  split at h
  · simp at h
  · obtain ⟨s1, hA, hB⟩ := bind_ok h
    refine inv_trans (periodicStageAll_inv hA) ?_
    simp only [] at hB
    split at hB
    · simp at hB
    · split at hB
      · exact defaultTail_inv hB
      · simp at hB

theorem step_inv {s s' : ReactorState} {c : Cmd}
    (h : step s c = .ok s') : Inv s s' := by
  cases c with
  | react idxs => exact addReaction_inv h
  | periodic d idxs => exact addPeriodicReaction_inv h

theorem runCmds_inv : ∀ {cmds : List Cmd} {s s' : ReactorState},
    runCmds cmds s = .ok s' → Inv s s' := by
  intro cmds
  induction cmds with
  | nil =>
      intro s s' h
      simp only [runCmds, Except.ok.injEq] at h
      subst h
      exact inv_refl s
  | cons c rest ih =>
      intro s s' h
      obtain ⟨s1, hA, hB⟩ := bind_ok h
      exact inv_trans (step_inv hA) (ih hB)

theorem runCmds_append (l1 l2 : List Cmd) :
    ∀ s : ReactorState,
      runCmds (l1 ++ l2) s = (runCmds l1 s).bind (runCmds l2) := by
  induction l1 with
  | nil => intro s; simp [runCmds, Except.bind]
  | cons c rest ih =>
      intro s
      simp only [List.cons_append, runCmds]
      cases step s c with
      | error e => simp [Except.bind]
      | ok s1 => simp [Except.bind, ih s1]

/-! ## `finalize` -/

theorem filterBonds_spec (del : Finset Nat) :
    ∀ {bonds kept : List Bond}, filterBonds del bonds = some kept →
      ∀ b ∈ kept, ∀ u : Nat,
        (b.atom1.endId = some u ∨ b.atom2.endId = some u) → u ∉ del := by
  intro bonds
  induction bonds with
  | nil =>
      intro kept h
      simp only [filterBonds, Option.some.injEq] at h
      subst h
      intro b hb
      exact absurd hb (List.not_mem_nil b)
  | cons b rest ih =>
      intro kept h
      simp only [filterBonds] at h
      rcases hk : bondKeep del b with _ | keep
      · rw [hk] at h; simp [Option.bind] at h
      · rw [hk] at h
        simp only [Option.some_bind] at h
        rcases hr : filterBonds del rest with _ | r
        · rw [hr] at h; simp at h
        · rw [hr] at h
          simp only [Option.map_some'] at h
          cases keep with
          | false =>
              simp only [if_neg (show ¬(false = true) by simp)] at h
              simp only [Option.some.injEq] at h
              subst h
              exact fun b' hb' => ih hr b' hb'
          | true =>
              simp only [if_pos rfl] at h
              simp only [Option.some.injEq] at h
              subst h
              intro b' hb' u hu
              rcases List.mem_cons.mp hb' with rfl | hb'
              · -- b' is the head; read the condition off `bondKeep`
                unfold bondKeep at hk
                split at hk
                · exact absurd hk (by simp)
                · rename_i u1 hu1
                  split at hk
                  · exact absurd hk (by simp)
                  · rename_i hu1mem
                    split at hk
                    · exact absurd hk (by simp)
                    · rename_i v1 hv1
                      simp only [Option.some.injEq] at hk
                      have hv1mem : v1 ∉ del := of_decide_eq_true hk
                      rcases hu with hu | hu
                      · rw [hu1] at hu
                        cases hu
                        exact hu1mem
                      · rw [hv1] at hu
                        cases hu
                        exact hv1mem
              · exact ih hr b' hb' u hu

theorem finalize_spec {s s' : ReactorState} {n : Nat}
    (h : finalize s = .ok (s', n)) :
    (∀ a ∈ s'.atoms, a.id ∉ s.deleterIds) ∧
    (∀ b ∈ s'.bonds, ∀ u : Nat,
      (b.atom1.endId = some u ∨ b.atom2.endId = some u) →
        u ∉ s.deleterIds) ∧
    s'.positionMatrix = (s.positionMatrix.enum.filter
      (fun p => decide (p.1 ∉ s.deleterIds))).map (·.2) ∧
    n = s.bondsMade := by
  unfold finalize at h
  split at h
  · exact absurd h (by simp)
  · rename_i bonds1 hfb
    simp only [Except.ok.injEq, Prod.mk.injEq] at h
    obtain ⟨h1, h2⟩ := h
    subst h1
    subst h2
    refine ⟨?_, ?_, rfl, rfl⟩
    · intro a ha
      have hmem : a ∈ s.atoms.filter (fun x => decide (x.id ∉ s.deleterIds)) :=
        ha
      have hp := List.of_mem_filter hmem
      exact of_decide_eq_true hp
    · exact filterBonds_spec s.deleterIds hfb

/-- Counterexample for C2: a sequence consisting of one diol/dibromine
reaction succeeds (two bonds made), but `finalize()` then raises
`AttributeError` instead of returning the bond total:
`_diol_with_dihalogen` appends bonds whose endpoints are the bare integer
atom ids yielded by `get_bonder_ids` (lines 788-789), and `finalize`'s bond
filter accesses `bond.atom1.id` (line 736), which fails on an `int`.  So the
claim's "finalize() returns the total number of bonds made" does not hold
for every sequence of calls. -/
theorem c2_counterexample :
    (runCmds [.react [0, 1]] diolDibromine).map ReactorState.bondsMade =
      .ok 2 ∧
    (runCmds [.react [0, 1]] diolDibromine).bind finalize =
      .error (.attributeError "id") := by
  constructor <;> with_unfolding_all rfl

/-- **C2 (amended).**  For every successful sequence of `add_reaction` /
`add_periodic_reaction` calls followed by a successful `finalize()`: no atom
whose id was ever added to the deletion set (i.e. added by any prefix of the
accumulation — the set only grows) remains in the atom list, no remaining
bond references such an atom, the position-matrix rows at the deleted
indices are removed, `finalize` returns the `_bonds_made` counter, and that
counter equals the number of bonds appended across the whole accumulation
phase. -/
theorem c2_finalize_commits
    (cmds1 cmds2 : List Cmd) (s0 sm s s' : ReactorState) (n : Nat)
    (h1 : runCmds cmds1 s0 = .ok sm)
    (h2 : runCmds (cmds1 ++ cmds2) s0 = .ok s)
    (hf : finalize s = .ok (s', n)) :
    (∀ a ∈ s'.atoms, a.id ∉ sm.deleterIds) ∧
    (∀ b ∈ s'.bonds, ∀ u : Nat,
      (b.atom1.endId = some u ∨ b.atom2.endId = some u) →
        u ∉ sm.deleterIds) ∧
    s'.positionMatrix = (s.positionMatrix.enum.filter
      (fun p => decide (p.1 ∉ s.deleterIds))).map (·.2) ∧
    n = s.bondsMade ∧
    (∃ k, s.bondsMade = s0.bondsMade + k ∧
      s.bonds.length = s0.bonds.length + k) := by
  have hsub : sm.deleterIds ⊆ s.deleterIds := by
    rw [runCmds_append] at h2
    obtain ⟨smid, hA, hB⟩ := bind_ok h2
    rw [h1] at hA
    simp only [Except.ok.injEq] at hA
    subst hA
    exact (runCmds_inv hB).1
  obtain ⟨hatoms, hbonds, hpos, hn⟩ := finalize_spec hf
  exact ⟨fun a ha hm => hatoms a ha (hsub hm),
         fun b hb u hu hm => hbonds b hb u hu (hsub hm),
         hpos, hn, (runCmds_inv h2).2⟩

/-- Witness for C2: the two-amine end-to-end scenario — one default
reaction, then `finalize`, which removes the four hydrogens (and their
position rows) and returns 1. -/
theorem c2_finalize_commits_witness :
    (∀ a ∈ finalizedAmines.atoms, a.id ∉ reactedAmines.deleterIds) ∧
    (∀ b ∈ finalizedAmines.bonds, ∀ u : Nat,
      (b.atom1.endId = some u ∨ b.atom2.endId = some u) →
        u ∉ reactedAmines.deleterIds) ∧
    finalizedAmines.positionMatrix =
      (reactedAmines.positionMatrix.enum.filter
        (fun p => decide (p.1 ∉ reactedAmines.deleterIds))).map (·.2) ∧
    1 = reactedAmines.bondsMade ∧
    (∃ k, reactedAmines.bondsMade = twoAmines.bondsMade + k ∧
      reactedAmines.bonds.length = twoAmines.bonds.length + k) :=
  c2_finalize_commits [.react [0, 1]] [] twoAmines reactedAmines
    reactedAmines finalizedAmines 1 (by decide) (by decide) (by decide)

/-! ## Periodic reactions -/

/-- Counterexample for C5: on the two-amine molecule,
`add_periodic_reaction` does NOT perform the same state changes as
`add_reaction` apart from the bond: `add_reaction` shrinks both groups' atom
tuples, while `add_periodic_reaction` leaves them whole (it only clears the
deleter tuples), so the resulting functional-group stores differ. -/
theorem c5_counterexample :
    decide ((addReaction twoAmines [0, 1]).map ReactorState.funcGroups =
      (addPeriodicReaction twoAmines (1, 0, 0) [0, 1]).map
        ReactorState.funcGroups) = false ∧
    (addPeriodicReaction twoAmines (1, 0, 0) [0, 1]).map
      (fun st => (st.funcGroups.map FunctionalGroup.atoms,
                  st.funcGroups.map FunctionalGroup.deleters)) =
      .ok ([[⟨0, 7⟩, ⟨1, 1⟩, ⟨2, 1⟩], [⟨3, 7⟩, ⟨4, 1⟩, ⟨5, 1⟩]], [[], []]) ∧
    (addReaction twoAmines [0, 1]).map
      (fun st => st.funcGroups.map FunctionalGroup.atoms) =
      .ok [[⟨0, 7⟩], [⟨3, 7⟩]] := by
  refine ⟨by decide, by decide, by decide⟩

/-- **C5 (amended).**  `add_periodic_reaction(direction, fg1, fg2)` stages
the same deletions as `add_reaction` and clears the deleter tuples, performs
the same bonds-made increment, appends a Periodic Bond carrying `direction`
between the first bonder atoms with the order from the shared bond-order
table, and consults only the separate (empty, hence disjoint) periodic
custom-procedure registry — but unlike `add_reaction` it does NOT shrink the
groups' atom tuples. -/
theorem c5_periodic_reaction
    (s : ReactorState) (direction : ℤ × ℤ × ℤ) (i j : Nat)
    (fgi fgj : FunctionalGroup)
    (b1 : Atom) (bs1 : List Atom) (b2 : Atom) (bs2 : List Atom)
    (hi : s.funcGroups[i]? = some fgi)
    (hj : s.funcGroups[j]? = some fgj)
    (hij : i ≠ j)
    (hb1 : fgi.bonders = b1 :: bs1)
    (hb2 : fgj.bonders = b2 :: bs2) :
    addPeriodicReaction s direction [i, j] = .ok
      { s with
        deleterIds := (s.deleterIds ∪ (fgi.deleters.map Atom.id).toFinset)
            ∪ (fgj.deleters.map Atom.id).toFinset,
        funcGroups := (s.funcGroups.set i { fgi with deleters := [] }).set j
          { fgj with deleters := [] },
        bonds := s.bonds ++
          [{ atom1 := .atom b1, atom2 := .atom b2,
             order := lookupBondOrder
               (reactionKey [fgi.fgTypeName, fgj.fgTypeName]),
             direction := some direction }],
        bondsMade := s.bondsMade + 1 } :=
  addPeriodicReaction_spec s direction i j fgi fgj b1 bs1 b2 bs2
    hi hj hij hb1 hb2

/-- Witness for the amended C5: the two-amine molecule with a periodic bond
along the x axis. -/
theorem c5_periodic_reaction_witness :
    addPeriodicReaction twoAmines (1, 0, 0) [0, 1] = .ok
      { atoms := [⟨0, 7⟩, ⟨1, 1⟩, ⟨2, 1⟩, ⟨3, 7⟩, ⟨4, 1⟩, ⟨5, 1⟩],
        bonds := [{ atom1 := .atom ⟨0, 7⟩, atom2 := .atom ⟨3, 7⟩,
                    order := 1, direction := some (1, 0, 0) }],
        positionMatrix := twoAmines.positionMatrix,
        funcGroups :=
          [{ atoms := [⟨0, 7⟩, ⟨1, 1⟩, ⟨2, 1⟩], bonders := [⟨0, 7⟩],
             deleters := [], fgTypeName := "amine" },
           { atoms := [⟨3, 7⟩, ⟨4, 1⟩, ⟨5, 1⟩], bonders := [⟨3, 7⟩],
             deleters := [], fgTypeName := "amine" }],
        deleterIds := {1, 2, 4, 5},
        bondsMade := 1 } := by
  rw [c5_periodic_reaction twoAmines (1, 0, 0) 0 1 amineA amineB
    ⟨0, 7⟩ [] ⟨3, 7⟩ [] rfl rfl (by decide) rfl rfl]
  decide

/-! ## The ring-amine custom reaction -/

/-- **C6.**  Evaluation of `_ring_amine_with_ring_amine` (dispatched through
`add_reaction`) on the concrete two-ring-amine molecule: it appends exactly
9 atoms, 12 bonds, increments bonds-made by 12 and deletes nothing — but the
first appended "bridging" atom (`n_joiner`) is created by `elements.C`, i.e.
as a CARBON (atomic number 6, not the nitrogen of the claim), and its
position is `(1, 0, 0)`, the midpoint of fg1's bonder carbon `(0, 0, 0)` and
fg1's own nitrogen `(2, 0, 0)` — not `(2, 2, 0)`, the midpoint of the two
amine nitrogens — because line 850 unpacks the coordinates fetched at line
849 in the order `(c1, n1, c2, n2)` into the names
`n1_coord, n2_coord, c1_coord, c2_coord`. -/
theorem c6_ring_amine_eval :
    (addReaction twoRingAmines [0, 1]).map
      (fun st => (st.atoms.length, st.bonds.length, st.bondsMade,
                  st.atoms.getD 4 ⟨0, 0⟩, st.deleterIds)) =
      .ok (13, 12, 12, ⟨4, 6⟩, ∅) ∧
    (addReaction twoRingAmines [0, 1]).map
      (fun st => st.positionMatrix.getD 4 (0, 0, 0)) =
      .ok (midV (0, 0, 0) (2, 0, 0)) ∧
    midV (0, 0, 0) (2, 0, 0) = ((1 : ℚ), (0 : ℚ), (0 : ℚ)) ∧
    midV (2, 0, 0) (2, 4, 0) = ((2 : ℚ), (2 : ℚ), (0 : ℚ)) ∧
    (((1 : ℚ) = (2 : ℚ)) = False) := by
  refine ⟨by decide, rfl, ?_, ?_, eq_false (by norm_num)⟩
  · unfold midV
    norm_num
  · unfold midV
    norm_num

/-! ## No finalized state -/

/-- Counterexample for C7: on the two-amine molecule, after a reaction and a
successful `finalize`, a further `add_reaction` call is still accepted — it
appends a second bond (bond count 1 before, 2 after) and increments the
bonds-made counter to 2.  The Reactor has no finalized state that rejects
further reactions. -/
theorem c7_counterexample :
    ((runCmds [.react [0, 1]] twoAmines).bind fun s1 =>
      (finalize s1).bind fun p =>
        (addReaction p.1 [0, 1]).map fun s3 =>
          (p.1.bonds.length, s3.bonds.length, s3.bondsMade)) =
      .ok (1, 2, 2) := by decide

/-- **C7 (amended).**  The Reactor is not a two-state machine: `finalize()`
commits the staged deletions and returns the bonds-made count, but it sets
no finalized flag, and any later `add_reaction` call on the finalized state
that satisfies the default-path conditions is accepted — it appends one more
bond and increments the counter exactly as during accumulation. -/
theorem c7_no_finalized_state
    (s s1 : ReactorState) (n : Nat) (i j : Nat)
    (fgi fgj : FunctionalGroup)
    (b1 : Atom) (bs1 : List Atom) (b2 : Atom) (bs2 : List Atom)
    (hfin : finalize s = .ok (s1, n))
    (hi : s1.funcGroups[i]? = some fgi)
    (hj : s1.funcGroups[j]? = some fgj)
    (hij : i ≠ j)
    (hcust : customReactions.lookup
      (reactionKey [fgi.fgTypeName, fgj.fgTypeName]) = none)
    (hb1 : fgi.bonders = b1 :: bs1)
    (hb2 : fgj.bonders = b2 :: bs2) :
    isOkB (addReaction s1 [i, j]) = true ∧
    (addReaction s1 [i, j]).map
      (fun s2 => (s2.bonds.length, s2.bondsMade)) =
      .ok (s1.bonds.length + 1, s1.bondsMade + 1) := by
  rw [addReaction_default_spec s1 i j fgi fgj b1 bs1 b2 bs2
    hi hj hij hcust hb1 hb2]
  exact ⟨rfl, by simp [Except.map]⟩

/-- Witness for the amended C7: `finalize` on the fresh two-amine molecule
(nothing staged) succeeds and returns 0, and a subsequent `add_reaction` is
accepted. -/
theorem c7_no_finalized_state_witness :
    isOkB (addReaction twoAmines [0, 1]) = true ∧
    (addReaction twoAmines [0, 1]).map
      (fun s2 => (s2.bonds.length, s2.bondsMade)) =
      .ok (twoAmines.bonds.length + 1, twoAmines.bondsMade + 1) :=
  c7_no_finalized_state twoAmines twoAmines 0 0 1 amineA amineB
    ⟨0, 7⟩ [] ⟨3, 7⟩ [] (by decide) rfl rfl (by decide) (by decide) rfl rfl

/-! ## Registry lookup failure -/

/-- Counterexample for C8: looking up a name absent from `fg_types` (such as
`'urea'`) fails with a plain `KeyError` from the dict subscription — not
with the `UnknownFunctionalGroupError` the claim names, which exists nowhere
in the repository. -/
theorem c8_counterexample :
    fgTypesLookup "urea" = .error (.keyError "urea") ∧
    decide ((PyErr.keyError "urea") =
      PyErr.unknownFunctionalGroup "urea") = false := by
  refine ⟨by decide, by decide⟩

/-- **C8 (amended).**  For every functional-group name absent from the
`fg_types` registry, the lookup `fg_types[name]` fails with `KeyError`
carrying that name; the lookup reads a constant table and takes no molecule
state, so it can leave no atom or bond list changed. -/
theorem c8_lookup_keyerror (name : String)
    (h : fgTypes.lookup name = none) :
    fgTypesLookup name = .error (.keyError name) := by
  unfold fgTypesLookup
  rw [h]

/-- Witness for the amended C8 at the absent name `'urea'`. -/
theorem c8_lookup_keyerror_witness :
    fgTypesLookup "urea" = .error (.keyError "urea") :=
  c8_lookup_keyerror "urea" (by decide)

/-! ## `add_conformer` rollback -/

/-- Counterexample for C9: a failing re-construction that bumped
`bonds_made` by 99 before raising leaves that mutation visible to callers —
only `_mol` is restored — so the molecule does NOT roll back its entire
prior state; the `ConstructionError` wrapping the original exception is
raised. -/
theorem c9_counterexample :
    (addConformer failingConstruct priorMol).1.mol = priorMol.mol ∧
    (addConformer failingConstruct priorMol).1.bondsMade = 100 ∧
    priorMol.bondsMade = 1 ∧
    (addConformer failingConstruct priorMol).2 =
      .error (.constructionError .valueError) := by
  refine ⟨by decide, by decide, by decide, by decide⟩

/-- **C9 (amended).**  If the re-construction inside `add_conformer` raises,
only the molecule's `_mol` attribute — its geometric state, including all
previously added conformers — is rolled back to its prior value, and a
`ConstructionError` wrapping the original exception is raised; any mutation
the failed `construct` made to the other attributes (`func_groups`,
`bonds_made`) remains visible. -/
theorem c9_rollback_mol_only
    (construct : CMol → CMol × Option PyErr) (m m1 : CMol) (e : PyErr)
    (h : construct m = (m1, some e)) :
    (addConformer construct m).1 = { m1 with mol := m.mol } ∧
    (addConformer construct m).2 = .error (.constructionError e) := by
  unfold addConformer
  rw [h]
  exact ⟨rfl, rfl⟩

/-- Witness for the amended C9 at the concrete failing construct. -/
theorem c9_rollback_mol_only_witness :
    (addConformer failingConstruct priorMol).1 =
      { mol := priorMol.mol, funcGroups := [amineA], bondsMade := 100 } ∧
    (addConformer failingConstruct priorMol).2 =
      .error (.constructionError .valueError) :=
  c9_rollback_mol_only failingConstruct priorMol
    { mol := [], funcGroups := [amineA], bondsMade := 100 } .valueError rfl

end Stk
